import Mathlib

/-!
Verification of the receipt printer service (`src/server.js`, `printer-config.js`).

The development shallowly embeds the print-job queue, the printer command
layer, and the image rasterization pipeline, and proves the specified
properties about them.

Conventions:
* JavaScript machine state (the module-level mutable variables `printQueue`
  and `isPrinting`) is represented as an explicit state record that the
  embedded operations thread through.
* Node's single-threaded event loop means each invocation of `processQueue`
  runs atomically up to its first `await`; we model the system as a
  transition system whose two events are "an `enqueue` call runs" (the push
  plus the synchronous prefix of `processQueue`) and "the awaited job
  settles" (the `catch`/flag-reset/re-invocation suffix of `processQueue`).
* The fields `started`, `completed` and `logged` are ghost instrumentation:
  they record which jobs began execution, which finished (in order), and
  which failed and were logged by the `catch` block.  They do not influence
  the dynamics, which are translated line by line from `processQueue`,
  `enqueue` and `getQueueStatus` in `src/server.js`.
-/

/-- State of the print queue module (`src/server.js` lines 37-38), plus ghost
observation fields. -/
structure QState (α : Type) where
  printQueue : List α
  isPrinting : Bool
  current : Option α
  started : List α
  completed : List α
  logged : List α
deriving DecidableEq

/-- The initial module state: empty queue, not printing. -/
def initQ {α : Type} : QState α := ⟨[], false, none, [], [], []⟩

/-- The synchronous prefix of `processQueue` (`src/server.js` lines 40-45):
return immediately if already printing or the queue is empty; otherwise set
`isPrinting = true`, shift the head job off the queue and begin executing it
(the job becomes `current` until its awaited promise settles). -/
def processQueueStep {α : Type} (s : QState α) : QState α :=
  if s.isPrinting then s
  else
    match s.printQueue with
    | [] => s
    | j :: rest =>
        { s with
          printQueue := rest
          isPrinting := true
          current := some j
          started := s.started ++ [j] }

/-- `enqueue` (`src/server.js` lines 57-60): push the job, then invoke
`processQueue`. -/
def enqueueQ {α : Type} (j : α) (s : QState α) : QState α :=
  processQueueStep { s with printQueue := s.printQueue ++ [j] }

/-- Settlement of `await job()` (`src/server.js` lines 47-54): the `catch`
logs a failure, `isPrinting` is reset to `false`, and `processQueue` is
re-invoked.  `fails j = true` models the job's promise rejecting. -/
def completeStep {α : Type} (fails : α → Bool) (s : QState α) : QState α :=
  match s.current with
  | none => s
  | some j =>
      processQueueStep
        { s with
          isPrinting := false
          current := none
          completed := s.completed ++ [j]
          logged := s.logged ++ (if fails j then [j] else []) }

/-- Events of the queue transition system: an `enqueue` call from any
submission source, or settlement of the currently awaited job. -/
inductive QEvent (α : Type) where
  | enq (j : α)
  | fin
deriving DecidableEq

/-- One event of the transition system. -/
def stepQ {α : Type} (fails : α → Bool) (s : QState α) : QEvent α → QState α
  | .enq j => enqueueQ j s
  | .fin => completeStep fails s

/-- Run a sequence of events from a given state. -/
def runQ {α : Type} (fails : α → Bool) (s : QState α) (es : List (QEvent α)) :
    QState α :=
  es.foldl (stepQ fails) s

/-- The jobs enqueued by a trace, in submission order. -/
def enqueuedOf {α : Type} (es : List (QEvent α)) : List α :=
  es.filterMap fun e =>
    match e with
    | .enq j => some j
    | .fin => none

/-- `getQueueStatus` (`src/server.js` lines 62-64). -/
structure QueueStatus where
  length : Nat
  printing : Bool
deriving DecidableEq

/-- `getQueueStatus` returns the queue depth and the printing flag. -/
def getQueueStatus {α : Type} (s : QState α) : QueueStatus :=
  ⟨s.printQueue.length, s.isPrinting⟩

/-- Reachable-state invariant of the queue, relative to the list `E` of jobs
enqueued so far. -/
def QInv {α : Type} (fails : α → Bool) (E : List α) (s : QState α) : Prop :=
  s.isPrinting = s.current.isSome ∧
  s.started = s.completed ++ s.current.toList ∧
  s.started ++ s.printQueue = E ∧
  (s.current = none → s.printQueue = []) ∧
  s.logged = s.completed.filter (fun j => fails j)

/-!
## Image rasterization pipeline

`processImageForPrinter` (`src/server.js` lines 93-117) composes external
library calls: a `sharp` chain (decode, resize to width 384 with
`fit: inside, withoutEnlargement: false`, grayscale, normalise, raw), a
grayscale-to-RGBA expansion loop (the only part implemented in the
repository itself), the `floyd-steinberg` package's dithering, and a PNG
re-encode.  The library stages are not part of the repository source, so
they are modelled from the specification (each such definition says so in
its doc comment).  Image decoding itself is kept abstract: definitions that
need it take a `decode` function as a parameter.
-/

/-- The printable raster handed to the queue layer: dimensions plus the
dithered pixel values in row-major order (`PNG.sync.write` is modelled as
this lossless packaging of the dithered grid). -/
structure RasterImage where
  width : Nat
  height : Nat
  bits : List Int
deriving DecidableEq

/-- A decoded RGB image: dimensions and a row-major pixel function. -/
structure RGBImage where
  width : Nat
  height : Nat
  pix : Nat → Nat × Nat × Nat

/-- A single-channel image with one intensity per pixel, row-major. -/
structure GrayImage where
  width : Nat
  height : Nat
  pix : Nat → Int

/-- `PRINTER_WIDTH_PX` (`src/server.js` line 28). -/
def PRINTER_WIDTH_PX : Nat := 384

/-- Modelled from the spec: the output dimensions of the `sharp` resize
(`resize(384, null, fit: inside, withoutEnlargement: false)`, whose
implementation is external to the repository): the target width is always
384 and the height is derived from the aspect ratio (rounded to the nearest
integer). -/
def resizeDims (w h : Nat) : Nat × Nat :=
  (PRINTER_WIDTH_PX, (h * PRINTER_WIDTH_PX + w / 2) / w)

/-- Modelled from the spec: the resize stage itself (external `sharp`
code).  The spec fixes only the output dimensions and that the transform is
a deterministic resampling; the sampling kernel is modelled as
nearest-neighbour. -/
def resizeRGB (img : RGBImage) : RGBImage :=
  let w' := (resizeDims img.width img.height).1
  let h' := (resizeDims img.width img.height).2
  ⟨w', h', fun i =>
    img.pix ((i / w' * img.height / h') * img.width + (i % w' * img.width / w'))⟩

/-- Modelled from the spec: the grayscale stage (external `sharp` code),
"a standard luminance-weighted conversion". -/
def grayscaleOf (img : RGBImage) : GrayImage :=
  ⟨img.width, img.height, fun i =>
    (((299 * (img.pix i).1 + 587 * (img.pix i).2.1 + 114 * (img.pix i).2.2)
        / 1000 : Nat) : Int)⟩

/-- Darkest pixel value of a grayscale image. -/
def minPix (g : GrayImage) : Int :=
  ((List.range (g.width * g.height)).map g.pix).foldl min 255

/-- Lightest pixel value of a grayscale image. -/
def maxPix (g : GrayImage) : Int :=
  ((List.range (g.width * g.height)).map g.pix).foldl max 0

/-- Modelled from the spec: the contrast normalisation stage (external
`sharp` code), "linearly stretch the grayscale histogram so the darkest
pixel maps near 0 and the lightest near 255"; a constant image is left
unchanged. -/
def normaliseImg (g : GrayImage) : GrayImage :=
  if maxPix g = minPix g then g
  else ⟨g.width, g.height,
    fun i => (g.pix i - minPix g) * 255 / (maxPix g - minPix g)⟩

/-- Pointwise update of a pixel buffer. -/
def updFn (b : Nat → Int) (j : Nat) (x : Int) : Nat → Int :=
  fun k => if k = j then x else b k

/-- Threshold at 128: choose black (0) or white (255). -/
def thresh (v : Int) : Int := if v < 128 then 0 else 255

/-- Modelled from the spec: diffusion of the quantization error `e` of
pixel `i` in a `w × h` grid (the dithering is performed by the external
`floyd-steinberg` package, which is not part of this repository): `7/16` of
the error goes to the right neighbour, `3/16` to the bottom-left, `5/16` to
the bottom, `1/16` to the bottom-right — each only when that neighbour lies
inside the grid. -/
def fsDiffuse (w h i : Nat) (e : Int) (b : Nat → Int) : Nat → Int :=
  let b1 := if i % w + 1 < w then updFn b (i + 1) (b (i + 1) + e * 7 / 16) else b
  let b2 := if i / w + 1 < h ∧ 0 < i % w then
    updFn b1 (i + w - 1) (b1 (i + w - 1) + e * 3 / 16) else b1
  let b3 := if i / w + 1 < h then updFn b2 (i + w) (b2 (i + w) + e * 5 / 16) else b2
  if i / w + 1 < h ∧ i % w + 1 < w then
    updFn b3 (i + w + 1) (b3 (i + w + 1) + e * 1 / 16) else b3

/-- Modelled from the spec: processing of one pixel — threshold its
accumulated value at 128, write the chosen black/white value, and diffuse
the quantization error to the not-yet-processed neighbours. -/
def fsStep (w h : Nat) (b : Nat → Int) (i : Nat) : Nat → Int :=
  fsDiffuse w h i (b i - thresh (b i)) (updFn b i (thresh (b i)))

/-- The dithering loop after processing the first `k` pixels, in row-major
order (pixel indices `0, 1, …, k-1`). -/
def fsRunUpTo (w h : Nat) (b : Nat → Int) (k : Nat) : Nat → Int :=
  (List.range k).foldl (fsStep w h) b

/-- Modelled from the spec: the full Floyd–Steinberg dithering pass over a
`w × h` grid, strict row-major order. -/
def fsRun (w h : Nat) (b : Nat → Int) : Nat → Int :=
  fsRunUpTo w h b (w * h)

/-- Dither a grayscale image in place. -/
def ditherImg (g : GrayImage) : GrayImage :=
  ⟨g.width, g.height, fsRun g.width g.height g.pix⟩

/-- `processImageForPrinter` (`src/server.js` lines 93-117) on an already
decoded image: resize, grayscale, normalise, dither, and pack the result
into the output buffer. -/
def processImageForPrinter (img : RGBImage) : RasterImage :=
  let d := ditherImg (normaliseImg (grayscaleOf (resizeRGB img)))
  ⟨d.width, d.height, (List.range (d.width * d.height)).map d.pix⟩

/-- A pure-white source image. -/
def whiteRGB (w h : Nat) : RGBImage := ⟨w, h, fun _ => (255, 255, 255)⟩

/-!
## Printer command layer

`node-thermal-printer` is external: a `ThermalPrinter` instance is modelled
as its configuration plus the buffer of formatting commands pushed so far;
`execute()` flushes the buffer to the device, so a job's device output is
its final buffer.  `toLocaleDateString` / `toLocaleTimeString` are external
locale formatting; their results enter the model as opaque string
parameters `dateStr` and `timeStr`.
-/

/-- `printer-config.js`: the shared printer configuration object. -/
structure PrinterConfig where
  type : String
  interfacePath : String
  characterSet : String
  removeSpecialCharacters : Bool
  lineCharacter : String
  width : Nat
  timeoutMs : Nat
deriving DecidableEq

/-- The exported `printerConfig` value (`printer-config.js`). -/
def printerConfig : PrinterConfig :=
  ⟨"EPSON", "/dev/usb/lp0", "SLOVENIA", false, "=", 42, 5000⟩

/-- Formatting commands issued to a `ThermalPrinter` instance. -/
inductive PCmd where
  | alignCenter
  | alignLeft
  | drawLine
  | setTypeFontB
  | setTypeFontA
  | bold (b : Bool)
  | println (s : String)
  | newLine
  | printImageBuffer (r : RasterImage)
  | cutPaper
deriving DecidableEq

/-- A `ThermalPrinter` instance: its configuration and buffered commands. -/
structure TPrinter where
  config : PrinterConfig
  buffer : List PCmd
deriving DecidableEq

/-- `new ThermalPrinter(cfg)`: a fresh instance with an empty buffer. -/
def mkThermalPrinter (cfg : PrinterConfig) : TPrinter := ⟨cfg, []⟩

/-- Buffer one formatting command. -/
def TPrinter.push (p : TPrinter) (c : PCmd) : TPrinter :=
  ⟨p.config, p.buffer ++ [c]⟩

/-- `addHeader` (`src/server.js` lines 68-78). -/
def addHeader (p : TPrinter) (title : String) : TPrinter :=
  ((((((((p.push .alignCenter).push .drawLine).push .setTypeFontB).push
    (.bold true)).push (.println title)).push (.bold false)).push
    .setTypeFontA).push .drawLine).push .newLine

/-- `addFooter` (`src/server.js` lines 80-89).  The `From:` line is printed
only when `domain` is truthy, i.e. a nonempty string. -/
def addFooter (p : TPrinter) (domain dateStr timeStr : String) : TPrinter :=
  let p1 := (p.push .drawLine).push
    (.println ("Date: " ++ dateStr ++ " " ++ timeStr))
  let p2 := if domain.isEmpty then p1 else p1.push (.println ("From: " ++ domain))
  (p2.push .drawLine).push .cutPaper

/-- `printTextReceipt` (`src/server.js` lines 121-130), generalized over the
configuration the fresh printer instance is built from. -/
def printTextReceiptWith (cfg : PrinterConfig)
    (text domain dateStr timeStr : String) : TPrinter :=
  let printer := mkThermalPrinter cfg
  let p1 := addHeader printer "RECEIPT"
  let p2 := ((p1.push .alignLeft).push (.println text)).push .newLine
  addFooter p2 domain dateStr timeStr

/-- `printTextReceipt` as in the source: built from the shared
`printerConfig`. -/
def printTextReceipt (text domain dateStr timeStr : String) : TPrinter :=
  printTextReceiptWith printerConfig text domain dateStr timeStr

/-- `printImageReceipt` (`src/server.js` lines 132-140), generalized over
the configuration. -/
def printImageReceiptWith (cfg : PrinterConfig) (processedImage : RasterImage)
    (domain dateStr timeStr : String) : TPrinter :=
  let printer := mkThermalPrinter cfg
  let p1 := addHeader printer "IMAGE PRINT"
  let p2 := (p1.push (.printImageBuffer processedImage)).push .newLine
  addFooter p2 domain dateStr timeStr

/-- `printImageReceipt` as in the source. -/
def printImageReceipt (processedImage : RasterImage)
    (domain dateStr timeStr : String) : TPrinter :=
  printImageReceiptWith printerConfig processedImage domain dateStr timeStr

/-- The claimed command sequence of a text job, written down from the
specification sentence word for word: centered bold title "RECEIPT",
horizontal rule, left-aligned body text, blank line, horizontal rule,
timestamp line, optional attribution line, rule, paper cut.  This definition
follows the spec text (not the source) so that it can be compared with the
source's `printTextReceipt`. -/
def claimedTextSequence (text domain dateStr timeStr : String) : List PCmd :=
  [.alignCenter, .bold true, .println "RECEIPT", .bold false, .drawLine,
   .alignLeft, .println text, .newLine, .drawLine,
   .println ("Date: " ++ dateStr ++ " " ++ timeStr)] ++
  (if domain.isEmpty then [] else [.println ("From: " ++ domain)]) ++
  [.drawLine, .cutPaper]

/-!
## Print jobs and routes
-/

/-- A print job description: the payload a queued closure captures. -/
inductive PrintJob where
  | text (t : String) (domain : String)
  | image (r : RasterImage) (domain : String)
deriving DecidableEq

/-- A job description for the frame-effect analysis: everything a job's
execution depends on besides the printer configuration. -/
inductive JobDesc where
  | textJob (text domain dateStr timeStr : String)
  | imageJob (processedImage : RasterImage) (domain dateStr timeStr : String)
deriving DecidableEq

/-- The state a job could conceivably mutate: the shared configuration
object read by `new ThermalPrinter(printerConfig)`. -/
structure PrinterWorld where
  config : PrinterConfig
deriving DecidableEq

/-- Execute one job as the source does: build a fresh `ThermalPrinter` from
the world's configuration, buffer the formatting commands, flush.  Returns
the device output and the (untouched) world. -/
def execJob (w : PrinterWorld) : JobDesc → List PCmd × PrinterWorld
  | .textJob t d ds ts => ((printTextReceiptWith w.config t d ds ts).buffer, w)
  | .imageJob r d ds ts => ((printImageReceiptWith w.config r d ds ts).buffer, w)

/-- Execute a sequence of jobs in order, threading the world through. -/
def execJobs (w : PrinterWorld) : List JobDesc → List (List PCmd) × PrinterWorld
  | [] => ([], w)
  | j :: rest =>
      let out := execJob w j
      let outs := execJobs out.2 rest
      (out.1 :: outs.1, outs.2)

/-- HTTP responses of the `/print-image` route, restricted to what the
claims need. -/
inductive HandlerResp where
  | ok (msg : String)
  | badRequest (msg : String)
  | serverError (msg : String)
deriving DecidableEq

/-- The `/print-image` route body (`src/server.js` lines 202-231) relative
to the queue: validate the upload, rasterize (`decode` is the abstract image
decoding; `none` is a `DecodeError`, which the `catch` turns into a 500
response), and only on success wrap the raster into a job and enqueue it.
File-system archival and console logging are external I/O and omitted. -/
def printImageRoute (decode : List Nat → Option RGBImage)
    (file : Option (List Nat)) (domain : String) (s : QState PrintJob) :
    HandlerResp × QState PrintJob :=
  match file with
  | none => (.badRequest "No image file uploaded", s)
  | some bytes =>
      match decode bytes with
      | none => (.serverError "DecodeError", s)
      | some img =>
          (.ok "Image added to print queue",
            enqueueQ (.image (processImageForPrinter img) domain) s)

/-- The module-level mutable state of the server plus a clock: everything a
run of the rasterizer could conceivably read besides its input bytes. -/
structure ServerState where
  queue : QState PrintJob
  receiptAcceptanceEnabled : Bool
  clock : Nat

/-- One run of the rasterizer, given the server state at the moment of the
call.  The source (`src/server.js` lines 93-117) reads no mutable state, so
the state parameter is not consulted. -/
def rasterizeBytesAt (decode : List Nat → Option RGBImage) (st : ServerState)
    (bytes : List Nat) : Option RasterImage :=
  (decode bytes).map processImageForPrinter

/-!
## Dithering and pipeline lemmas
-/

theorem updFn_self (b : Nat → Int) (j : Nat) : updFn b j (b j) = b := by
  funext k
  unfold updFn
  split
  · rename_i hk; rw [hk]
  · rfl

theorem stage_apply {c : Prop} [Decidable c] (bb : Nat → Int) (t : Nat)
    (x : Int) (j : Nat) (hj : c → j ≠ t) :
    (if c then updFn bb t x else bb) j = bb j := by
  split
  · rename_i hc; simp [updFn, hj hc]
  · rfl

theorem fsDiffuse_le {w h i : Nat} (hw : 0 < w) (e : Int) (b : Nat → Int)
    {j : Nat} (hj : j ≤ i) : fsDiffuse w h i e b j = b j := by
  have hm : i % w < w := Nat.mod_lt i hw
  simp only [fsDiffuse]
  rw [stage_apply, stage_apply, stage_apply, stage_apply]
  · intro _; omega
  · intro hc; obtain ⟨hc1, hc2⟩ := hc; omega
  · intro _; omega
  · intro _; omega

theorem fsStep_le {w h : Nat} (hw : 0 < w) (b : Nat → Int) {i j : Nat}
    (hj : j ≤ i) :
    fsStep w h b i j = if j = i then thresh (b i) else b j := by
  unfold fsStep
  rw [fsDiffuse_le hw _ _ hj]
  rfl

theorem fsRunUpTo_succ (w h : Nat) (b : Nat → Int) (k : Nat) :
    fsRunUpTo w h b (k + 1) = fsStep w h (fsRunUpTo w h b k) k := by
  unfold fsRunUpTo
  rw [List.range_succ, List.foldl_append]
  rfl

theorem fsRunUpTo_frozen {w h : Nat} (b : Nat → Int) (hw : 0 < w) :
    ∀ k j, j < k → fsRunUpTo w h b k j = thresh (fsRunUpTo w h b j j) := by
  intro k
  induction k with
  | zero => intro j hj; exact absurd hj (Nat.not_lt_zero j)
  | succ k ih =>
      intro j hj
      rw [fsRunUpTo_succ]
      rcases Nat.lt_succ_iff_lt_or_eq.mp hj with h' | h'
      · rw [fsStep_le hw _ (Nat.le_of_lt h'), if_neg (Nat.ne_of_lt h'), ih j h']
      · subst h'
        rw [fsStep_le hw _ (Nat.le_refl j), if_pos rfl]

theorem fsDiffuse_zero {w h i : Nat} (b : Nat → Int) :
    fsDiffuse w h i 0 b = b := by
  have hz : (0 : Int) / 16 = 0 := by decide
  simp only [fsDiffuse, zero_mul, hz, add_zero, updFn_self, ite_self]

theorem fsStep_white {w h : Nat} {b : Nat → Int} (hb : ∀ j, b j = 255)
    (i : Nat) : ∀ j, fsStep w h b i j = 255 := by
  have hbi : b i = 255 := hb i
  have ht : thresh (b i) = 255 := by rw [hbi]; decide
  have he : b i - thresh (b i) = 0 := by rw [ht, hbi]; decide
  intro j
  unfold fsStep
  rw [he, fsDiffuse_zero, ht]
  unfold updFn
  split
  · rfl
  · exact hb j

theorem foldl_fsStep_white {w h : Nat} :
    ∀ (l : List Nat) (b : Nat → Int), (∀ j, b j = 255) →
      ∀ j, (l.foldl (fsStep w h) b) j = 255 := by
  intro l
  induction l with
  | nil => intro b hb j; exact hb j
  | cons i l ih => intro b hb j; exact ih _ (fsStep_white hb i) j

theorem fsRun_white {w h : Nat} {b : Nat → Int} (hb : ∀ j, b j = 255) :
    ∀ j, fsRun w h b j = 255 :=
  foldl_fsStep_white _ _ hb

theorem foldl_min_all255 : ∀ l : List Int, (∀ x ∈ l, x = 255) →
    l.foldl min 255 = 255 := by
  intro l
  induction l with
  | nil => intro _; rfl
  | cons x xs ih =>
      intro hx
      have hx0 : x = 255 := hx x (List.mem_cons_self x xs)
      have h' : ∀ y ∈ xs, y = 255 := fun y hy => hx y (List.mem_cons_of_mem x hy)
      rw [List.foldl_cons, hx0, min_self]
      exact ih h'

theorem foldl_max_all255 : ∀ l : List Int, (∀ x ∈ l, x = 255) →
    l.foldl max 255 = 255 := by
  intro l
  induction l with
  | nil => intro _; rfl
  | cons x xs ih =>
      intro hx
      have hx0 : x = 255 := hx x (List.mem_cons_self x xs)
      have h' : ∀ y ∈ xs, y = 255 := fun y hy => hx y (List.mem_cons_of_mem x hy)
      rw [List.foldl_cons, hx0, max_self]
      exact ih h'

theorem foldl_max0_all255 (l : List Int) (hl : l ≠ [])
    (hx : ∀ x ∈ l, x = 255) : l.foldl max 0 = 255 := by
  cases l with
  | nil => exact absurd rfl hl
  | cons x xs =>
      have hx0 : x = 255 := hx x (List.mem_cons_self x xs)
      have h' : ∀ y ∈ xs, y = 255 := fun y hy => hx y (List.mem_cons_of_mem x hy)
      rw [List.foldl_cons, hx0, max_eq_right (by norm_num : (0 : Int) ≤ 255)]
      exact foldl_max_all255 xs h'

theorem map_range_const {f : Nat → Int} {c : Int} :
    ∀ n : Nat, (∀ i, i < n → f i = c) →
      (List.range n).map f = List.replicate n c := by
  intro n
  induction n with
  | zero => intro _; rfl
  | succ n ih =>
      intro hf
      rw [List.range_succ, List.map_append,
        ih (fun i hi => hf i (Nat.lt_succ_of_lt hi)), List.map_singleton,
        hf n (Nat.lt_succ_self n), List.replicate_succ']

theorem grayImage_eq {a b : GrayImage} (hw : a.width = b.width)
    (hh : a.height = b.height) (hp : ∀ i, a.pix i = b.pix i) : a = b := by
  obtain ⟨aw, ah, ap⟩ := a
  obtain ⟨bw, bh, bp⟩ := b
  dsimp only at hw hh hp
  subst hw
  subst hh
  exact congrArg (GrayImage.mk aw ah) (funext hp)

theorem white_gray_768 :
    grayscaleOf (resizeRGB (whiteRGB 768 100)) =
      ⟨384, 50, fun _ => (255 : Int)⟩ := by
  refine grayImage_eq (by rfl) (by rfl) fun i => ?_
  show (((299 * 255 + 587 * 255 + 114 * 255) / 1000 : Nat) : Int) = (255 : Int)
  rfl

theorem minPix_const255 {w h : Nat} :
    minPix ⟨w, h, fun _ => (255 : Int)⟩ = 255 := by
  unfold minPix
  apply foldl_min_all255
  intro x hx
  simp only [List.mem_map] at hx
  obtain ⟨a, _, hax⟩ := hx
  exact hax.symm

theorem maxPix_const255 {w h : Nat} (hpos : 0 < w * h) :
    maxPix ⟨w, h, fun _ => (255 : Int)⟩ = 255 := by
  unfold maxPix
  apply foldl_max0_all255
  · intro hemp
    rw [List.map_eq_nil_iff, List.range_eq_nil] at hemp
    dsimp only at hemp
    omega
  · intro x hx
    simp only [List.mem_map] at hx
    obtain ⟨a, _, hax⟩ := hx
    exact hax.symm

theorem normalise_const255 {w h : Nat} (hpos : 0 < w * h) :
    normaliseImg ⟨w, h, fun _ => (255 : Int)⟩ =
      ⟨w, h, fun _ => (255 : Int)⟩ := by
  unfold normaliseImg
  rw [if_pos]
  rw [maxPix_const255 hpos, minPix_const255]

theorem processImageForPrinter_eq (img : RGBImage) :
    processImageForPrinter img =
      ⟨(normaliseImg (grayscaleOf (resizeRGB img))).width,
       (normaliseImg (grayscaleOf (resizeRGB img))).height,
       (List.range ((normaliseImg (grayscaleOf (resizeRGB img))).width *
           (normaliseImg (grayscaleOf (resizeRGB img))).height)).map
         (ditherImg (normaliseImg (grayscaleOf (resizeRGB img)))).pix⟩ := rfl

theorem white_pipeline_768 :
    processImageForPrinter (whiteRGB 768 100) =
      ⟨384, 50, List.replicate (384 * 50) 255⟩ := by
  have hn : normaliseImg (grayscaleOf (resizeRGB (whiteRGB 768 100))) =
      ⟨384, 50, fun _ => (255 : Int)⟩ := by
    rw [white_gray_768]
    exact normalise_const255 (by norm_num)
  rw [processImageForPrinter_eq, hn]
  dsimp only [ditherImg]
  exact congrArg (RasterImage.mk 384 50)
    (map_range_const (384 * 50) fun i _ => fsRun_white (fun _ => rfl) i)

theorem resizeDims_aspect (w h : Nat) (hw : 0 < w) :
    (resizeDims w h).1 = PRINTER_WIDTH_PX ∧
    (resizeDims w h).2 * w ≤ h * PRINTER_WIDTH_PX + w ∧
    h * PRINTER_WIDTH_PX ≤ (resizeDims w h).2 * w + w := by
  refine ⟨rfl, ?_, ?_⟩
  · simp only [resizeDims, PRINTER_WIDTH_PX]
    have h1 : (h * 384 + w / 2) / w * w ≤ h * 384 + w / 2 :=
      Nat.div_mul_le_self _ _
    have h2 : w / 2 ≤ w := Nat.div_le_self w 2
    omega
  · simp only [resizeDims, PRINTER_WIDTH_PX]
    have hmod : (h * 384 + w / 2) % w < w := Nat.mod_lt _ hw
    have hdm : (h * 384 + w / 2) / w * w + (h * 384 + w / 2) % w =
        h * 384 + w / 2 := Nat.div_add_mod' _ _
    omega

/-!
## Queue lemmas
-/

theorem processQueueStep_of_printing {α : Type} {s : QState α}
    (h : s.isPrinting = true) : processQueueStep s = s := by
  simp [processQueueStep, h]

theorem processQueueStep_of_empty {α : Type} {s : QState α}
    (h : s.printQueue = []) : processQueueStep s = s := by
  cases hp : s.isPrinting <;> simp [processQueueStep, h, hp]

theorem processQueueStep_pop {α : Type} {s : QState α} {j : α} {rest : List α}
    (hp : s.isPrinting = false) (hq : s.printQueue = j :: rest) :
    processQueueStep s =
      { s with printQueue := rest, isPrinting := true, current := some j,
               started := s.started ++ [j] } := by
  simp [processQueueStep, hp, hq]

theorem runQ_nil {α : Type} (fails : α → Bool) (s : QState α) :
    runQ fails s [] = s := rfl

theorem runQ_cons {α : Type} (fails : α → Bool) (s : QState α) (e : QEvent α)
    (es : List (QEvent α)) :
    runQ fails s (e :: es) = runQ fails (stepQ fails s e) es := rfl

theorem inv_initQ {α : Type} (fails : α → Bool) :
    QInv fails [] (initQ : QState α) :=
  ⟨rfl, rfl, rfl, fun _ => rfl, rfl⟩

theorem current_none_of_not_printing {α : Type} {fails : α → Bool}
    {E : List α} {s : QState α} (h : QInv fails E s)
    (hp : s.isPrinting = false) : s.current = none := by
  obtain ⟨h1, _, _, _, _⟩ := h
  rw [hp] at h1
  cases hc : s.current with
  | none => rfl
  | some j => rw [hc] at h1; simp at h1

theorem inv_enqueueQ {α : Type} {fails : α → Bool} {E : List α}
    {s : QState α} (j : α) (h : QInv fails E s) :
    QInv fails (E ++ [j]) (enqueueQ j s) := by
  obtain ⟨h1, h2, h3, h4, h5⟩ := h
  cases hp : s.isPrinting with
  | true =>
      have : enqueueQ j s = { s with printQueue := s.printQueue ++ [j] } := by
        simp [enqueueQ, processQueueStep, hp]
      rw [this]
      refine ⟨h1, h2, ?_, ?_, h5⟩
      · simpa [List.append_assoc] using congrArg (· ++ [j]) h3
      · intro hc
        exfalso
        rw [hc] at h1
        rw [hp] at h1
        simp at h1
  | false =>
      have hc : s.current = none :=
        current_none_of_not_printing ⟨h1, h2, h3, h4, h5⟩ hp
      have hq : s.printQueue = [] := h4 hc
      have : enqueueQ j s =
          { s with printQueue := [], isPrinting := true, current := some j,
                   started := s.started ++ [j] } := by
        simp [enqueueQ, processQueueStep, hp, hq]
      rw [this]
      refine ⟨rfl, ?_, ?_, by simp, h5⟩
      · rw [h2, hc]
        simp
      · rw [hq] at h3
        simp only [List.append_nil] at h3
        simp [h3]

theorem inv_completeStep {α : Type} {fails : α → Bool} {E : List α}
    {s : QState α} (h : QInv fails E s) :
    QInv fails E (completeStep fails s) := by
  obtain ⟨h1, h2, h3, h4, h5⟩ := h
  cases hc : s.current with
  | none => simpa [completeStep, hc] using ⟨h1, h2, h3, h4, h5⟩
  | some j =>
      cases hq : s.printQueue with
      | nil =>
          have : completeStep fails s =
              { s with isPrinting := false, current := none,
                       completed := s.completed ++ [j],
                       logged := s.logged ++ (if fails j then [j] else []) } := by
            simp [completeStep, hc, processQueueStep, hq]
          rw [this]
          refine ⟨rfl, ?_, ?_, fun _ => hq, ?_⟩
          · rw [h2, hc]
            simp
          · exact h3
          · rw [h5, List.filter_append]
            cases hf : fails j <;> simp [hf]
      | cons j' rest =>
          have : completeStep fails s =
              { s with printQueue := rest, isPrinting := true,
                       current := some j', started := s.started ++ [j'],
                       completed := s.completed ++ [j],
                       logged := s.logged ++ (if fails j then [j] else []) } := by
            simp [completeStep, hc, processQueueStep, hq]
          rw [this]
          refine ⟨rfl, ?_, ?_, by simp, ?_⟩
          · rw [h2, hc]
            simp
          · rw [hq] at h3
            rw [← h3]
            simp
          · rw [h5, List.filter_append]
            cases hf : fails j <;> simp [hf]

theorem inv_runQ {α : Type} (fails : α → Bool) (es : List (QEvent α)) :
    ∀ (s : QState α) (E : List α), QInv fails E s →
      QInv fails (E ++ enqueuedOf es) (runQ fails s es) := by
  induction es with
  | nil => intro s E h; simpa [runQ_nil, enqueuedOf] using h
  | cons e es ih =>
      intro s E h
      cases e with
      | enq j =>
          have h' := inv_enqueueQ j h
          have := ih _ _ h'
          rw [runQ_cons]
          simpa [stepQ, enqueuedOf, List.append_assoc] using this
      | fin =>
          have h' := inv_completeStep h
          have := ih _ _ h'
          rw [runQ_cons]
          simpa [stepQ, enqueuedOf] using this

theorem reachable_inv {α : Type} (fails : α → Bool) (es : List (QEvent α)) :
    QInv fails (enqueuedOf es) (runQ fails initQ es) := by
  have := inv_runQ fails es initQ [] (inv_initQ fails)
  simpa using this

theorem drainQ {α : Type} (fails : α → Bool) :
    ∀ (n : Nat) (s : QState α) (E : List α), QInv fails E s →
      s.printQueue.length + s.current.toList.length = n →
      runQ fails s (List.replicate n .fin) =
        ⟨[], false, none, E, E, E.filter (fun j => fails j)⟩ := by
  intro n
  induction n with
  | zero =>
      intro s E h hn
      obtain ⟨h1, h2, h3, h4, h5⟩ := h
      have hq : s.printQueue = [] := by
        cases hq' : s.printQueue with
        | nil => rfl
        | cons x xs => rw [hq'] at hn; simp at hn
      have hc : s.current = none := by
        cases hc' : s.current with
        | none => rfl
        | some j => rw [hc'] at hn; simp at hn
      have hp : s.isPrinting = false := by rw [h1, hc]; rfl
      have hst : s.started = E := by
        rw [hq] at h3; simpa using h3
      have hcm : s.completed = E := by
        rw [h2, hc] at hst; simpa using hst
      have hl : s.logged = E.filter (fun j => fails j) := by rw [h5, hcm]
      cases s
      simp only [List.replicate, runQ_nil]
      simp_all
  | succ n ih =>
      intro s E h hn
      obtain ⟨h1, h2, h3, h4, h5⟩ := h
      cases hc : s.current with
      | none =>
          exfalso
          have hq := h4 hc
          rw [hq, hc] at hn
          simp at hn
      | some j =>
          rw [List.replicate_succ, runQ_cons]
          have hinv : QInv fails E (completeStep fails s) :=
            inv_completeStep ⟨h1, h2, h3, h4, h5⟩
          cases hq : s.printQueue with
          | nil =>
              have hstep : completeStep fails s =
                  { s with isPrinting := false, current := none,
                           completed := s.completed ++ [j],
                           logged := s.logged ++ (if fails j then [j] else []) } := by
                simp [completeStep, hc, processQueueStep, hq]
              have hlen : (completeStep fails s).printQueue.length +
                  (completeStep fails s).current.toList.length = n := by
                rw [hstep]
                rw [hq, hc] at hn
                simp [hq] at hn ⊢
                omega
              exact ih _ _ hinv hlen
          | cons j' rest =>
              have hstep : completeStep fails s =
                  { s with printQueue := rest, isPrinting := true,
                           current := some j', started := s.started ++ [j'],
                           completed := s.completed ++ [j],
                           logged := s.logged ++ (if fails j then [j] else []) } := by
                simp [completeStep, hc, processQueueStep, hq]
              have hlen : (completeStep fails s).printQueue.length +
                  (completeStep fails s).current.toList.length = n := by
                rw [hstep]
                rw [hq, hc] at hn
                simp at hn ⊢
                omega
              exact ih _ _ hinv hlen

/-!
## Claim theorems
-/

/-- Claim C1: for every trace of `enqueue` calls and job completions, from
any submission source, the queue executes exactly the enqueued jobs in
strict FIFO order: the `printing` flag is true exactly when a job is
executing, at most one job executes at any instant, jobs start in exact
enqueue order (the started list plus the pending queue is the enqueue
trace), and once the pending work is drained exactly the enqueued jobs have
started and completed, in enqueue order. -/
theorem queue_fifo_serialization {α : Type} (fails : α → Bool)
    (es : List (QEvent α)) :
    let s := runQ fails initQ es
    s.isPrinting = s.current.isSome ∧
    s.current.toList.length ≤ 1 ∧
    s.started = s.completed ++ s.current.toList ∧
    s.started ++ s.printQueue = enqueuedOf es ∧
    runQ fails s
        (List.replicate (s.printQueue.length + s.current.toList.length) .fin) =
      ⟨[], false, none, enqueuedOf es, enqueuedOf es,
        (enqueuedOf es).filter (fun j => fails j)⟩ := by
  intro s
  obtain ⟨h1, h2, h3, h4, h5⟩ := reachable_inv fails es
  refine ⟨h1, ?_, h2, h3, ?_⟩
  · cases hc : s.current <;> simp [hc]
  · exact drainQ fails _ s (enqueuedOf es) ⟨h1, h2, h3, h4, h5⟩ rfl

/-- Claim C2: the drain loop is a no-op when already printing or when the
queue is empty; otherwise it sets the printing flag, pops the head job and
begins executing it; and when the awaited job settles it resets the flag,
records (and, on failure, logs) the job, and re-invokes itself. -/
theorem processQueue_step_spec {α : Type} :
    (∀ s : QState α, s.isPrinting = true ∨ s.printQueue = [] →
      processQueueStep s = s) ∧
    (∀ (s : QState α) (j : α) (rest : List α),
      s.isPrinting = false → s.printQueue = j :: rest →
      processQueueStep s =
        { s with printQueue := rest, isPrinting := true, current := some j,
                 started := s.started ++ [j] }) ∧
    (∀ (fails : α → Bool) (s : QState α) (j : α), s.current = some j →
      completeStep fails s =
        processQueueStep
          { s with isPrinting := false, current := none,
                   completed := s.completed ++ [j],
                   logged := s.logged ++ (if fails j then [j] else []) }) := by
  refine ⟨?_, ?_, ?_⟩
  · intro s hs
    rcases hs with hp | hq
    · exact processQueueStep_of_printing hp
    · exact processQueueStep_of_empty hq
  · intro s j rest hp hq
    exact processQueueStep_pop hp hq
  · intro fails s j hc
    simp [completeStep, hc]

/-- Witness for C2 at concrete states: a busy queue is untouched, an idle
nonempty queue pops its head, and completion resets the flag and logs a
failing job. -/
theorem processQueue_step_spec_witness :
    ((⟨[7], true, some 1, [1], [], []⟩ : QState Nat).isPrinting = true ∨
      (⟨[7], true, some 1, [1], [], []⟩ : QState Nat).printQueue = []) ∧
    processQueueStep (⟨[7], true, some 1, [1], [], []⟩ : QState Nat) =
      ⟨[7], true, some 1, [1], [], []⟩ ∧
    processQueueStep (⟨[5], false, none, [], [], []⟩ : QState Nat) =
      ⟨[], true, some 5, [5], [], []⟩ ∧
    completeStep (fun n => decide (n = 3))
        (⟨[], true, some 3, [3], [], []⟩ : QState Nat) =
      ⟨[], false, none, [3], [3], [3]⟩ := by
  refine ⟨Or.inl rfl, processQueue_step_spec.1 _ (Or.inl rfl), ?_, ?_⟩
  · have h := processQueue_step_spec.2.1
      (⟨[5], false, none, [], [], []⟩ : QState Nat) 5 [] rfl rfl
    rw [h]
    decide
  · have h := processQueue_step_spec.2.2 (fun n => decide (n = 3))
      (⟨[], true, some 3, [3], [], []⟩ : QState Nat) 3 rfl
    rw [h]
    decide

/-- Claim C3: job failures are caught and logged, the failed job is not
retried, the flag is reset and draining continues, so later jobs still
execute: in every trace the logged jobs are exactly the completed jobs that
failed, the pending-plus-started jobs are exactly the enqueue trace
whatever the failure pattern, and concretely a failing job followed by
another job leaves both executed exactly once with the queue idle. -/
theorem queue_failure_isolation {α : Type} (fails : α → Bool)
    (es : List (QEvent α)) :
    let s := runQ fails initQ es
    s.logged = s.completed.filter (fun j => fails j) ∧
    s.started ++ s.printQueue = enqueuedOf es ∧
    ∀ j1 j2 : α,
      runQ fails initQ [.enq j1, .enq j2, .fin, .fin] =
        ⟨[], false, none, [j1, j2], [j1, j2],
          (if fails j1 then [j1] else []) ++ (if fails j2 then [j2] else [])⟩ := by
  intro s
  obtain ⟨h1, h2, h3, h4, h5⟩ := reachable_inv fails es
  refine ⟨h5, h3, ?_⟩
  intro j1 j2
  simp [runQ, stepQ, enqueueQ, completeStep, processQueueStep, initQ]

/-- Claim C8: `getQueueStatus` is the read-only pair of queue depth and
printing flag, and in every reachable state the reported length counts only
the jobs not yet started — the in-flight job was shifted off the queue
before execution, so it is excluded. -/
theorem status_snapshot {α : Type} (fails : α → Bool) (es : List (QEvent α)) :
    (∀ s : QState α, getQueueStatus s = ⟨s.printQueue.length, s.isPrinting⟩) ∧
    (let s := runQ fails initQ es
     s.started = s.completed ++ s.current.toList ∧
     (enqueuedOf es).length =
       (getQueueStatus s).length + s.completed.length +
         s.current.toList.length) := by
  refine ⟨fun s => rfl, ?_⟩
  intro s
  obtain ⟨h1, h2, h3, h4, h5⟩ := reachable_inv fails es
  refine ⟨h2, ?_⟩
  have hlen : s.started.length + s.printQueue.length =
      (enqueuedOf es).length := by
    rw [← h3]
    simp [List.length_append]
  have hlen2 : s.started.length =
      s.completed.length + s.current.toList.length := by
    rw [h2]
    simp [List.length_append]
  show (enqueuedOf es).length =
    s.printQueue.length + s.completed.length + s.current.toList.length
  omega

/-- Claim C4: the dithering pass processes the pixels in strict row-major
order (indices `0, …, w*h-1`), each step thresholds the pixel's accumulated
value at 128 and diffuses the quantization error to the four unprocessed
neighbours with weights 7/16, 3/16, 5/16, 1/16; a pixel's value is frozen
by thresholding at its own step — error accumulates into a pixel only
before it is itself thresholded — and every processed pixel ends up black
or white. -/
theorem dither_floyd_steinberg_spec :
    (∀ g : GrayImage, ditherImg g =
      ⟨g.width, g.height,
        (List.range (g.width * g.height)).foldl
          (fsStep g.width g.height) g.pix⟩) ∧
    (∀ (w h : Nat) (b : Nat → Int) (i : Nat),
      fsStep w h b i =
        fsDiffuse w h i (b i - thresh (b i)) (updFn b i (thresh (b i)))) ∧
    (∀ v : Int, thresh v = if v < 128 then 0 else 255) ∧
    (∀ (w h : Nat) (b : Nat → Int) (k j : Nat), 0 < w → j < k →
      fsRunUpTo w h b k j = thresh (fsRunUpTo w h b j j)) ∧
    (∀ (w h : Nat) (b : Nat → Int) (i : Nat), i < w * h →
      fsRun w h b i = 0 ∨ fsRun w h b i = 255) := by
  refine ⟨fun g => rfl, fun w h b i => rfl, fun v => rfl, ?_, ?_⟩
  · intro w h b k j hw hj
    exact fsRunUpTo_frozen b hw k j hj
  · intro w h b i hi
    have hw : 0 < w := by
      rcases Nat.eq_zero_or_pos w with h0 | h0
      · subst h0; simp at hi
      · exact h0
    have hfr := @fsRunUpTo_frozen w h b hw (w * h) i hi
    unfold fsRun
    rw [hfr]
    unfold thresh
    split
    · exact Or.inl rfl
    · exact Or.inr rfl

/-- Witness for C4 on a concrete 2×1 grid of light-gray pixels. -/
theorem dither_floyd_steinberg_spec_witness :
    ((0 : Nat) < 2 ∧ (0 : Nat) < 1 ∧ (0 : Nat) < 2 * 1) ∧
    fsRunUpTo 2 1 (fun _ => (200 : Int)) 1 0 =
      thresh (fsRunUpTo 2 1 (fun _ => (200 : Int)) 0 0) ∧
    (fsRun 2 1 (fun _ => (200 : Int)) 0 = 0 ∨
      fsRun 2 1 (fun _ => (200 : Int)) 0 = 255) :=
  ⟨⟨by decide, by decide, by decide⟩,
   dither_floyd_steinberg_spec.2.2.2.1 2 1 (fun _ => (200 : Int)) 1 0
     (by decide) (by decide),
   dither_floyd_steinberg_spec.2.2.2.2 2 1 (fun _ => (200 : Int)) 0
     (by decide)⟩

/-- Claim C5: the rasterizer is deterministic — its result is a function of
the input bytes alone (with the fixed target width), independent of the
server's mutable state (queue contents, printing flag, acceptance flag,
clock), so two runs on the same bytes produce identical output buffers. -/
theorem rasterizer_deterministic (decode : List Nat → Option RGBImage)
    (st1 st2 : ServerState) (bytes : List Nat) :
    rasterizeBytesAt decode st1 bytes = rasterizeBytesAt decode st2 bytes :=
  rfl

/-- Claim C6: the resize stage always outputs width 384 with the height
derived from the aspect ratio (`height*width_in` within one rounding unit
of `height_in*384`); a 768×100 source maps to exactly 384×50; and the full
pipeline on a 768×100 pure-white image yields a 384×50 raster whose pixels
are all light (255) after dithering. -/
theorem rasterize_resize_white (w h : Nat) (hw : 0 < w) :
    ((resizeDims w h).1 = PRINTER_WIDTH_PX ∧
     (resizeDims w h).2 * w ≤ h * PRINTER_WIDTH_PX + w ∧
     h * PRINTER_WIDTH_PX ≤ (resizeDims w h).2 * w + w) ∧
    resizeDims 768 100 = (384, 50) ∧
    processImageForPrinter (whiteRGB 768 100) =
      ⟨384, 50, List.replicate (384 * 50) 255⟩ :=
  ⟨resizeDims_aspect w h hw, by decide, white_pipeline_768⟩

/-- Witness for C6 at the concrete 768×100 source. -/
theorem rasterize_resize_white_witness :
    (0 : Nat) < 768 ∧
    (((resizeDims 768 100).1 = PRINTER_WIDTH_PX ∧
      (resizeDims 768 100).2 * 768 ≤ 100 * PRINTER_WIDTH_PX + 768 ∧
      100 * PRINTER_WIDTH_PX ≤ (resizeDims 768 100).2 * 768 + 768) ∧
     resizeDims 768 100 = (384, 50) ∧
     processImageForPrinter (whiteRGB 768 100) =
       ⟨384, 50, List.replicate (384 * 50) 255⟩) :=
  ⟨by decide, rasterize_resize_white 768 100 (by decide)⟩

/-- Claim C7: when the uploaded bytes are not a decodable image the
`/print-image` route fails with the decode error before any job is created:
the response is the 500 decode failure and the queue state is returned
unchanged — no job value is constructed or enqueued. -/
theorem decode_error_leaves_queue (decode : List Nat → Option RGBImage)
    (bytes : List Nat) (domain : String) (s : QState PrintJob)
    (hdec : decode bytes = none) :
    printImageRoute decode (some bytes) domain s =
      (.serverError "DecodeError", s) := by
  simp [printImageRoute, hdec]

/-- Witness for C7: a decoder that rejects everything leaves the initial
queue untouched. -/
theorem decode_error_leaves_queue_witness :
    (fun _ : List Nat => (none : Option RGBImage)) [] = none ∧
    printImageRoute (fun _ => none) (some []) "" initQ =
      (.serverError "DecodeError", initQ) :=
  ⟨rfl, decode_error_leaves_queue (fun _ => none) [] "" initQ rfl⟩

/-- Claim C9 counterexample: the text job does not issue the claimed
sequence — the source emits a horizontal rule (and font selection commands)
before the title and a blank line after the header's closing rule, which
the claimed sequence omits. -/
theorem text_receipt_claimed_sequence_refuted :
    (printTextReceipt "hello" "" "1/1/2026" "00:00:00").buffer ≠
      claimedTextSequence "hello" "" "1/1/2026" "00:00:00" := by
  decide

/-- Claim C9 amended: for every text and attribution input the text job
issues exactly: center alignment, a rule, font B, bold on, the title
"RECEIPT", bold off, font A, a rule, a blank line, left alignment, the body
text, a blank line, a rule, the timestamp line, the attribution line when
the submitting domain is nonempty, a rule, and a paper cut. -/
theorem text_receipt_sequence (text domain dateStr timeStr : String) :
    (printTextReceipt text domain dateStr timeStr).buffer =
      [.alignCenter, .drawLine, .setTypeFontB, .bold true, .println "RECEIPT",
       .bold false, .setTypeFontA, .drawLine, .newLine,
       .alignLeft, .println text, .newLine,
       .drawLine, .println ("Date: " ++ dateStr ++ " " ++ timeStr)] ++
      (if domain.isEmpty then [] else [.println ("From: " ++ domain)]) ++
      [.drawLine, .cutPaper] := by
  by_cases hd : domain.isEmpty <;>
    simp [printTextReceipt, printTextReceiptWith, addHeader, addFooter,
      mkThermalPrinter, TPrinter.push, hd]

theorem execJob_world (w : PrinterWorld) (j : JobDesc) :
    (execJob w j).2 = w := by
  cases j <;> rfl

/-- Claim C10: executing any sequence of print jobs leaves the shared
printer configuration untouched, and each job's device output is computed
from a fresh `ThermalPrinter` built from that configuration — it equals the
output of running that job alone, so no formatting state set by an earlier
job is observable by a later one. -/
theorem fresh_printer_frame (w : PrinterWorld) (jobs : List JobDesc) :
    execJobs w jobs = (jobs.map fun j => (execJob w j).1, w) := by
  induction jobs with
  | nil => rfl
  | cons j rest ih =>
      simp [execJobs, execJob_world, ih]
